import Mathlib

/-!
Shallow embedding of the researcher-relevance core of the kaketsuken-gate
application: the delimiter tokenizer, the pairwise relevance-graph builder,
the AND/OR predicate evaluator and the record filter, together with proofs
of the behavioural properties claimed for them.

JavaScript strings are modelled as lists of characters; a JS value that may
be `undefined` or a string is modelled so that `undefined` and the empty
string coincide whenever the source code itself cannot distinguish them
(it only tests them with the truthiness operator).
-/

/-- Character strings are modelled as lists of characters. -/
abbrev Str := List Char

/-- The whitespace class used both by the delimiter regex (the
whitespace-star part after an ASCII comma) and by trimming: space, tab,
newline, carriage return, vertical tab, form feed, no-break space,
ideographic space and the BOM character. -/
def isWs (c : Char) : Bool :=
  c == ' ' || c == '\t' || c == '\n' || c == '\r' ||
  c == Char.ofNat 11 || c == Char.ofNat 12 || c == Char.ofNat 160 ||
  c == Char.ofNat 0x3000 || c == Char.ofNat 0xFEFF

/-- Remove leading and trailing whitespace, as JS trim does. -/
def trim (s : Str) : Str :=
  ((s.dropWhile isWs).reverse.dropWhile isWs).reverse

/-- One scan of the JS split on the regex alternation
comma-then-any-whitespace or wide comma.  The boolean records whether we
are currently consuming the whitespace that may follow an ASCII comma. -/
def splitGo : Str → Bool → Str → List Str
  | [], _, acc => [acc.reverse]
  | c :: rest, skipping, acc =>
    if skipping && isWs c then splitGo rest true acc
    else if c == ',' then acc.reverse :: splitGo rest true []
    else if c == '、' then acc.reverse :: splitGo rest false []
    else splitGo rest false (c :: acc)

/-- Embedding of splitByDelimiters: an empty (or absent) string yields no
tokens; otherwise split on ASCII comma plus optional whitespace or on the
wide comma, and keep the pieces whose trimmed form is non-empty (the kept
pieces themselves are not trimmed). -/
def splitByDelimiters (str : Str) : List Str :=
  if str.isEmpty then []
  else (splitGo str false []).filter (fun item => !(trim item).isEmpty)

/-- One stored relevance edge: the peer id and the positive score. -/
structure Conn where
  id : Str
  score : Nat
deriving DecidableEq

/-- A researcher record.  All attributes are raw delimited strings; the
derived connections list is empty until the graph builder writes it. -/
structure Researcher where
  id : Str
  name : Str := []
  affiliation : Str := []
  program : Str := []
  theme : Str := []
  field : Str := []
  keywords : Str := []
  keytechnology : Str := []
  connections : List Conn := []
deriving DecidableEq

/-- Embedding of one attribute loop of the score computation: for each of
my tokens that is truthy and included in the other record's token list,
add the weight w to the accumulator. -/
def matchBonus (w : Nat) (mine others : List Str) : Nat :=
  mine.foldl (fun s t => if !t.isEmpty && others.contains t then s + w else s) 0

/-- Embedding of the score computed by calculateConnections for the ordered
pair of records: weight 3 for field, 2 for theme, 1 for keywords and 1 for
keytechnology.  The program attribute is split by the source code but never
used in the score, so it does not appear here. -/
def calcScore (a b : Researcher) : Nat :=
  matchBonus 3 (splitByDelimiters a.field) (splitByDelimiters b.field) +
  matchBonus 2 (splitByDelimiters a.theme) (splitByDelimiters b.theme) +
  matchBonus 1 (splitByDelimiters a.keywords) (splitByDelimiters b.keywords) +
  matchBonus 1 (splitByDelimiters a.keytechnology) (splitByDelimiters b.keytechnology)

/-- The connections list of a record before sorting: one entry per other
record (same id means self and is skipped) whose score is positive, in the
order the records occur in the input list. -/
def rawConnections (researchers : List Researcher) (r : Researcher) : List Conn :=
  researchers.filterMap (fun o =>
    if r.id = o.id then none
    else if 0 < calcScore r o then some ⟨o.id, calcScore r o⟩ else none)

/-- The comparator used to sort connections: descending score.  The JS
comparator subtracts scores inside a stable Array sort. -/
def scoreGe (a b : Conn) : Bool := decide (b.score ≤ a.score)

/-- Embedding of the connections list finally stored on a record: the raw
list sorted stably by descending score. -/
def connectionsFor (researchers : List Researcher) (r : Researcher) : List Conn :=
  (rawConnections researchers r).mergeSort scoreGe

/-- Embedding of calculateConnections: every record receives its computed
connections list; nothing else about the records changes. -/
def calculateConnections (researchers : List Researcher) : List Researcher :=
  researchers.map (fun r => { r with connections := connectionsFor researchers r })

/-- Splitting on the pipe character, as JS split with a one-character
separator: an empty input gives one empty piece, and separators at the ends
give empty pieces. -/
def splitPipe : Str → List Str
  | [] => [[]]
  | c :: rest =>
    if c == '|' then [] :: splitPipe rest
    else
      match splitPipe rest with
      | [] => [[c]]
      | t :: ts => (c :: t) :: ts

/-- The reserved marker that turns a filter expression into an AND-list. -/
def andMarker : Str := ['A', 'N', 'D', ':']

/-- Embedding of matchField.  An absent or empty filter value matches
everything; a present filter against an absent or empty attribute fails;
otherwise the attribute is tokenized and the expression is an AND-list when
it starts with the marker (every required value must be a token) and an
OR-list otherwise (some allowed value must be a token). -/
def matchField (fieldValue filterValue : Str) : Bool :=
  if filterValue.isEmpty || fieldValue.isEmpty then filterValue.isEmpty
  else
    let fieldValues := splitByDelimiters fieldValue
    if filterValue.take 4 = andMarker then
      (splitPipe (filterValue.drop 4)).all (fun v => fieldValues.contains v)
    else
      (splitPipe filterValue).any (fun v => fieldValues.contains v)

/-- The criteria mapping: a key set to none is absent from the mapping, a
key set to some value is present with that (possibly empty) string. -/
structure Filters where
  field : Option Str := none
  keyword : Option Str := none
  keytechnology : Option Str := none
  program : Option Str := none
  theme : Option Str := none
  affiliation : Option Str := none
deriving DecidableEq

/-- JS truthiness of an optional string: undefined and the empty string are
falsy, every other string is truthy. -/
def truthy : Option Str → Bool
  | none => false
  | some s => !s.isEmpty

/-- The string carried by an optional value, the empty string if absent. -/
def getStr : Option Str → Str
  | none => []
  | some s => s

/-- The single free-text query shared by the theme and affiliation
criteria: the theme value when truthy, else the affiliation value when
truthy, else empty. -/
def searchQ (f : Filters) : Str :=
  if truthy f.theme then getStr f.theme
  else if truthy f.affiliation then getStr f.affiliation
  else []

/-- Character lowering used for the case-insensitive free-text match. -/
def lowerStr (s : Str) : Str := s.map Char.toLower

/-- Substring containment, as JS includes: the needle occurs contiguously
somewhere in the haystack. -/
def strContains (hay needle : Str) : Bool :=
  (List.range (hay.length + 1)).any (fun i => decide ((hay.drop i).take needle.length = needle))

/-- The free-text check of the record filter: one of name, theme or
affiliation is non-empty and contains the query case-insensitively. -/
def textMatchQ (r : Researcher) (q : Str) : Bool :=
  (!r.name.isEmpty && strContains (lowerStr r.name) (lowerStr q)) ||
  (!r.theme.isEmpty && strContains (lowerStr r.theme) (lowerStr q)) ||
  (!r.affiliation.isEmpty && strContains (lowerStr r.affiliation) (lowerStr q))

/-- One record's passage through every active check of filterResearchers:
the free-text check when a truthy theme or affiliation criterion is
present, then matchField for each truthy attribute criterion. -/
def researcherPasses (filters : Filters) (r : Researcher) : Bool :=
  (if truthy filters.theme || truthy filters.affiliation then textMatchQ r (searchQ filters)
   else true) &&
  (if truthy filters.field then matchField r.field (getStr filters.field) else true) &&
  (if truthy filters.keyword then matchField r.keywords (getStr filters.keyword) else true) &&
  (if truthy filters.keytechnology then matchField r.keytechnology (getStr filters.keytechnology)
   else true) &&
  (if truthy filters.program then matchField r.program (getStr filters.program) else true)

/-- Whether the criteria mapping has no key at all, the condition under
which filterResearchers returns its input directly. -/
def filtersEmpty (f : Filters) : Bool :=
  f.field.isNone && f.keyword.isNone && f.keytechnology.isNone &&
  f.program.isNone && f.theme.isNone && f.affiliation.isNone

/-- Embedding of filterResearchers: the input list itself when the criteria
mapping is empty, otherwise the records passing every active check. -/
def filterResearchers (researchers : List Researcher) (filters : Filters) : List Researcher :=
  if filtersEmpty filters then researchers
  else researchers.filter (researcherPasses filters)

example : splitByDelimiters "A, B、C".data = ["A".data, "B".data, "C".data] := by decide
example : splitByDelimiters "A 、B".data = ["A ".data, "B".data] := by decide
example : splitByDelimiters [] = [] := by decide
example : splitByDelimiters "a,,b".data = ["a".data, "b".data] := by decide
example : matchField "X,Y,Z".data "AND:X|Y".data = true := by decide
example : matchField "X,Y,Z".data "AND:X|W".data = false := by decide
example : matchField "X,Y".data "X|W".data = true := by decide
example : matchField "X,Y".data "W|V".data = false := by decide
example : strContains "kumamoto univ.".data "kuma".data = true := by decide

theorem trim_nil : trim [] = [] := rfl

theorem mem_splitByDelimiters_trim {s t : Str} (h : t ∈ splitByDelimiters s) :
    trim t ≠ [] := by
  cases hs : s.isEmpty with
  | true => simp [splitByDelimiters, hs] at h
  | false =>
    have h2 : t ∈ splitGo s false [] ∧ ¬trim t = [] := by
      simpa [splitByDelimiters, hs, List.mem_filter, List.isEmpty_iff] using h
    exact h2.2

theorem mem_splitByDelimiters_ne_nil {s t : Str} (h : t ∈ splitByDelimiters s) :
    t ≠ [] := by
  intro hnil
  exact mem_splitByDelimiters_trim h (hnil ▸ trim_nil)

theorem contains_eq_decide_mem (l : List Str) (t : Str) :
    l.contains t = decide (t ∈ l) := by
  by_cases h : t ∈ l <;> simp [List.contains, h]

theorem matchBonus_shift (w : Nat) (others : List Str) (mine : List Str) (s : Nat) :
    mine.foldl (fun acc t => if !t.isEmpty && others.contains t then acc + w else acc) s =
      s + matchBonus w mine others := by
  induction mine generalizing s with
  | nil => simp [matchBonus]
  | cons t ts ih =>
    rw [List.foldl_cons, ih]
    have h0 : matchBonus w (t :: ts) others =
        (if !t.isEmpty && others.contains t then 0 + w else 0) + matchBonus w ts others := by
      show (t :: ts).foldl
          (fun acc u => if !u.isEmpty && others.contains u then acc + w else acc) 0 =
        (if !t.isEmpty && others.contains t then 0 + w else 0) + matchBonus w ts others
      rw [List.foldl_cons, ih]
    rw [h0]
    show (if !t.isEmpty && others.contains t then s + w else s) + matchBonus w ts others = _
    by_cases h : (!t.isEmpty && others.contains t) = true
    · rw [if_pos h, if_pos h]
      omega
    · rw [if_neg h, if_neg h]
      omega

theorem matchBonus_cons (w : Nat) (t : Str) (ts others : List Str) :
    matchBonus w (t :: ts) others =
      (if !t.isEmpty && others.contains t then w else 0) + matchBonus w ts others := by
  have h0 : matchBonus w (t :: ts) others =
      (t :: ts).foldl
        (fun acc u => if !u.isEmpty && others.contains u then acc + w else acc) 0 := rfl
  rw [h0, List.foldl_cons, matchBonus_shift]
  by_cases h : (!t.isEmpty && others.contains t) = true <;> simp [h]

theorem matchBonus_nil_right (w : Nat) (xs : List Str) : matchBonus w xs [] = 0 := by
  induction xs with
  | nil => rfl
  | cons t ts ih =>
    rw [matchBonus_cons]
    simpa using ih

theorem matchBonus_eq_mul (w : Nat) (xs ys : List Str) (hx : ∀ t ∈ xs, t ≠ []) :
    matchBonus w xs ys = w * ((xs.filter (fun t => decide (t ∈ ys))).length) := by
  induction xs with
  | nil => simp [matchBonus]
  | cons t ts ih =>
    have ht : t ≠ [] := hx t (by simp)
    have hts : ∀ u ∈ ts, u ≠ [] := fun u hu => hx u (by simp [hu])
    have hne : t.isEmpty = false := by
      cases t with
      | nil => exact absurd rfl ht
      | cons c cs => rfl
    rw [matchBonus_cons, ih hts, List.filter_cons]
    by_cases hm : t ∈ ys
    · rw [if_pos (by simp [hne, contains_eq_decide_mem, hm]),
        if_pos (by simp [hm] : decide (t ∈ ys) = true), List.length_cons, Nat.mul_succ]
      omega
    · rw [if_neg (by simp [contains_eq_decide_mem, hm]), if_neg (by simp [hm])]
      omega

theorem filter_mem_length_comm (xs ys : List Str) (hx : xs.Nodup) (hy : ys.Nodup) :
    ((xs.filter (fun t => decide (t ∈ ys))).length) =
      ((ys.filter (fun t => decide (t ∈ xs))).length) := by
  apply List.Perm.length_eq
  rw [List.perm_ext_iff_of_nodup (hx.filter _) (hy.filter _)]
  intro a
  simp only [List.mem_filter, decide_eq_true_iff]
  exact and_comm

/-- C1: the relevance score is the weighted sum over the first record's
tokens of 3 per shared field tag, 2 per shared theme tag, 1 per shared
keywords tag and 1 per shared keytechnology tag; the program attribute
never changes the score; two records sharing exactly one field tag and
nothing else score 3, and sharing one field tag plus one keywords tag
score 4. -/
theorem calcScore_weighted_breakdown :
    (∀ a b : Researcher,
      calcScore a b =
        3 * ((splitByDelimiters a.field).filter
              (fun t => decide (t ∈ splitByDelimiters b.field))).length +
        2 * ((splitByDelimiters a.theme).filter
              (fun t => decide (t ∈ splitByDelimiters b.theme))).length +
        ((splitByDelimiters a.keywords).filter
              (fun t => decide (t ∈ splitByDelimiters b.keywords))).length +
        ((splitByDelimiters a.keytechnology).filter
              (fun t => decide (t ∈ splitByDelimiters b.keytechnology))).length) ∧
    (∀ (a b : Researcher) (pa pb : Str),
      calcScore { a with program := pa } { b with program := pb } = calcScore a b) ∧
    calcScore { id := "1".data, field := "X,Y".data }
      { id := "2".data, field := "X,Z".data } = 3 ∧
    calcScore { id := "1".data, field := "X,Y".data, keywords := "K,L".data }
      { id := "2".data, field := "X,Z".data, keywords := "K,M".data } = 4 := by
  refine ⟨?_, fun a b pa pb => rfl, by decide, by decide⟩
  intro a b
  have e1 := matchBonus_eq_mul 3 (splitByDelimiters a.field) (splitByDelimiters b.field)
    (fun t ht => mem_splitByDelimiters_ne_nil ht)
  have e2 := matchBonus_eq_mul 2 (splitByDelimiters a.theme) (splitByDelimiters b.theme)
    (fun t ht => mem_splitByDelimiters_ne_nil ht)
  have e3 := matchBonus_eq_mul 1 (splitByDelimiters a.keywords) (splitByDelimiters b.keywords)
    (fun t ht => mem_splitByDelimiters_ne_nil ht)
  have e4 := matchBonus_eq_mul 1 (splitByDelimiters a.keytechnology)
    (splitByDelimiters b.keytechnology) (fun t ht => mem_splitByDelimiters_ne_nil ht)
  unfold calcScore
  rw [e1, e2, e3, e4, Nat.one_mul, Nat.one_mul]

/-- Tokenizer as the claim words it (a spec-side reading in which every
retained substring is itself trimmed): split on the delimiters, trim every
piece, and drop the pieces that end up empty. -/
def tokenizeTrimmedSpec (str : Str) : List Str :=
  if str.isEmpty then []
  else ((splitGo str false []).map trim).filter (fun item => !item.isEmpty)

/-- C2 counterexample: on the input consisting of A, a space, a wide comma
and B, the claimed trimmed tokenizer yields A and B, but the code keeps the
first piece with its trailing space, so the claimed output is wrong. -/
theorem splitByDelimiters_not_trimmed_cex :
    tokenizeTrimmedSpec "A 、B".data = ["A".data, "B".data] ∧
    splitByDelimiters "A 、B".data = ["A ".data, "B".data] ∧
    splitByDelimiters "A 、B".data ≠ tokenizeTrimmedSpec "A 、B".data := by
  decide

/-- C2 amended: the tokenizer returns the ordered pieces obtained by
splitting on ASCII comma plus optional whitespace or on the wide comma,
keeping exactly the pieces whose trimmed form is non-empty but leaving the
kept pieces untrimmed; empty input yields the empty sequence and every
returned token is non-empty (and non-blank). -/
theorem splitByDelimiters_amended :
    splitByDelimiters [] = [] ∧
    splitByDelimiters "A, B、C".data = ["A".data, "B".data, "C".data] ∧
    splitByDelimiters "A 、B".data = ["A ".data, "B".data] ∧
    (∀ s t : Str, t ∈ splitByDelimiters s → trim t ≠ [] ∧ t ≠ []) := by
  refine ⟨rfl, by decide, by decide, ?_⟩
  intro s t ht
  exact ⟨mem_splitByDelimiters_trim ht, mem_splitByDelimiters_ne_nil ht⟩

theorem splitByDelimiters_amended_witness :
    trim "A".data ≠ [] ∧ "A".data ≠ [] :=
  splitByDelimiters_amended.2.2.2 "A, B".data "A".data (by decide)

/-- C3: with a present (non-empty) expression, matchField fails on an
empty attribute; otherwise an AND-marked expression requires every
pipe-separated value to be a token of the attribute, and any other
expression requires at least one pipe-separated value to be a token;
membership is exact token equality. -/
theorem matchField_spec (fv e : Str) (he : e ≠ []) :
    matchField fv e = true ↔
      (fv ≠ [] ∧
        if e.take 4 = andMarker
        then ∀ v ∈ splitPipe (e.drop 4), v ∈ splitByDelimiters fv
        else ∃ v ∈ splitPipe e, v ∈ splitByDelimiters fv) := by
  have he' : e.isEmpty = false := by
    cases e with
    | nil => exact absurd rfl he
    | cons c cs => rfl
  by_cases hfv : fv = []
  · subst hfv
    simp [matchField, he']
  · have hfv' : fv.isEmpty = false := by
      cases fv with
      | nil => exact absurd rfl hfv
      | cons c cs => rfl
    by_cases hAnd : e.take 4 = andMarker
    · simp [matchField, he', hfv', hAnd, hfv, List.all_eq_true, contains_eq_decide_mem]
    · simp [matchField, he', hfv', hAnd, hfv, List.any_eq_true, contains_eq_decide_mem]

theorem matchField_spec_witness : matchField "X,Y,Z".data "AND:X|Y".data = true :=
  (matchField_spec "X,Y,Z".data "AND:X|Y".data (by decide)).mpr (by decide)

theorem if_bool_true (c : Prop) [Decidable c] (x : Bool) :
    ((if c then x else true) = true) ↔ (c → x = true) := by
  split <;> simp [*]

theorem filtersEmpty_truthy {f : Filters} (h : filtersEmpty f = true) :
    truthy f.field = false ∧ truthy f.keyword = false ∧ truthy f.keytechnology = false ∧
    truthy f.program = false ∧ truthy f.theme = false ∧ truthy f.affiliation = false := by
  simp only [filtersEmpty, Bool.and_eq_true, Option.isNone_iff_eq_none, and_assoc] at h
  obtain ⟨h1, h2, h3, h4, h5, h6⟩ := h
  rw [h1, h2, h3, h4, h5, h6]
  exact ⟨rfl, rfl, rfl, rfl, rfl, rfl⟩

theorem researcherPasses_iff (f : Filters) (r : Researcher) :
    researcherPasses f r = true ↔
      (((truthy f.theme || truthy f.affiliation) = true → textMatchQ r (searchQ f) = true) ∧
       (truthy f.field = true → matchField r.field (getStr f.field) = true) ∧
       (truthy f.keyword = true → matchField r.keywords (getStr f.keyword) = true) ∧
       (truthy f.keytechnology = true →
         matchField r.keytechnology (getStr f.keytechnology) = true) ∧
       (truthy f.program = true → matchField r.program (getStr f.program) = true)) := by
  simp only [researcherPasses, Bool.and_eq_true, if_bool_true, and_assoc]

theorem strContains_nil {needle : Str} (hn : needle ≠ []) : strContains [] needle = false := by
  have : (List.range 1) = [0] := rfl
  simp [strContains, this, eq_comm, hn]

theorem textMatchQ_iff (r : Researcher) (q : Str) (hq : q ≠ []) :
    textMatchQ r q = true ↔
      (strContains (lowerStr r.name) (lowerStr q) = true ∨
       strContains (lowerStr r.theme) (lowerStr q) = true ∨
       strContains (lowerStr r.affiliation) (lowerStr q) = true) := by
  have hlq : lowerStr q ≠ [] := by
    cases q with
    | nil => exact absurd rfl hq
    | cons c cs => simp [lowerStr]
  have key : ∀ s : Str, ((!s.isEmpty && strContains (lowerStr s) (lowerStr q)) = true ↔
      strContains (lowerStr s) (lowerStr q) = true) := by
    intro s
    cases s with
    | nil =>
      rw [show lowerStr ([] : Str) = [] from rfl, strContains_nil hlq]
      simp
    | cons c cs => simp
  simp only [textMatchQ, Bool.or_eq_true, key, or_assoc]

/-- C4: a record is in the filtered output exactly when it is in the input
and passes every active check: the shared free-text check when a truthy
theme or affiliation criterion is present, and the predicate evaluator for
each truthy attribute criterion; with a non-empty query the free-text check
is a plain case-insensitive substring test over name, theme and
affiliation; a record with affiliation Kumamoto Univ. matches the
affiliation criterion kuma. -/
theorem filterResearchersSpec :
    (∀ (rs : List Researcher) (f : Filters) (r : Researcher),
      r ∈ filterResearchers rs f ↔
        (r ∈ rs ∧
         ((truthy f.theme || truthy f.affiliation) = true → textMatchQ r (searchQ f) = true) ∧
         (truthy f.field = true → matchField r.field (getStr f.field) = true) ∧
         (truthy f.keyword = true → matchField r.keywords (getStr f.keyword) = true) ∧
         (truthy f.keytechnology = true →
           matchField r.keytechnology (getStr f.keytechnology) = true) ∧
         (truthy f.program = true → matchField r.program (getStr f.program) = true))) ∧
    (∀ (r : Researcher) (q : Str), q ≠ [] →
      (textMatchQ r q = true ↔
        (strContains (lowerStr r.name) (lowerStr q) = true ∨
         strContains (lowerStr r.theme) (lowerStr q) = true ∨
         strContains (lowerStr r.affiliation) (lowerStr q) = true))) ∧
    ({ id := "1".data, affiliation := "Kumamoto Univ.".data : Researcher } ∈
      filterResearchers [{ id := "1".data, affiliation := "Kumamoto Univ.".data }]
        { affiliation := some "kuma".data }) := by
  refine ⟨?_, fun r q hq => textMatchQ_iff r q hq, by decide⟩
  intro rs f r
  by_cases hf : filtersEmpty f = true
  · obtain ⟨t1, t2, t3, t4, t5, t6⟩ := filtersEmpty_truthy hf
    simp [filterResearchers, hf, t1, t2, t3, t4, t5, t6]
  · unfold filterResearchers
    rw [if_neg hf, List.mem_filter, researcherPasses_iff]

/-- C6: a tag occurring k times in the first record's token list and
present in the other record's token list contributes k times the weight,
and the contribution depends on the other record's token list only through
membership, never through multiplicity; lifted to the full score, replacing
the other record by one whose token lists are membership-equivalent leaves
the score unchanged. -/
theorem matchBonus_multiplicity :
    (∀ (w : Nat) (xs ys ys' : List Str),
      (∀ t : Str, ys.contains t = ys'.contains t) →
      matchBonus w xs ys = matchBonus w xs ys') ∧
    (∀ (w k : Nat) (t : Str) (ys : List Str), t ≠ [] → t ∈ ys →
      matchBonus w (List.replicate k t) ys = k * w) ∧
    (∀ (a b b' : Researcher),
      (∀ t : Str, (splitByDelimiters b.field).contains t =
        (splitByDelimiters b'.field).contains t) →
      (∀ t : Str, (splitByDelimiters b.theme).contains t =
        (splitByDelimiters b'.theme).contains t) →
      (∀ t : Str, (splitByDelimiters b.keywords).contains t =
        (splitByDelimiters b'.keywords).contains t) →
      (∀ t : Str, (splitByDelimiters b.keytechnology).contains t =
        (splitByDelimiters b'.keytechnology).contains t) →
      calcScore a b = calcScore a b') := by
  have inv : ∀ (w : Nat) (xs ys ys' : List Str),
      (∀ t : Str, ys.contains t = ys'.contains t) →
      matchBonus w xs ys = matchBonus w xs ys' := by
    intro w xs ys ys' h
    induction xs with
    | nil => rfl
    | cons t ts ih => rw [matchBonus_cons, matchBonus_cons, h t, ih]
  refine ⟨inv, ?_, ?_⟩
  · intro w k t ys ht hm
    have hne : t.isEmpty = false := by
      cases t with
      | nil => exact absurd rfl ht
      | cons c cs => rfl
    induction k with
    | zero => simp [matchBonus]
    | succ n ih =>
      rw [List.replicate_succ, matchBonus_cons, ih,
        if_pos (by simp [hne, contains_eq_decide_mem, hm]), Nat.succ_mul]
      omega
  · intro a b b' h1 h2 h3 h4
    unfold calcScore
    rw [inv 3 _ _ _ h1, inv 2 _ _ _ h2, inv 1 _ _ _ h3, inv 1 _ _ _ h4]

theorem matchBonus_multiplicity_witness :
    matchBonus 1 (List.replicate 2 "K".data) ["K".data] = 2 * 1 :=
  matchBonus_multiplicity.2.1 1 2 "K".data ["K".data] (by decide) (by decide)

/-- C7: when every tokenized attribute of both records is duplicate-free,
the score computed from one side equals the score computed from the other
side. -/
theorem calcScore_symm (a b : Researcher)
    (haf : (splitByDelimiters a.field).Nodup) (hat : (splitByDelimiters a.theme).Nodup)
    (hak : (splitByDelimiters a.keywords).Nodup)
    (hay : (splitByDelimiters a.keytechnology).Nodup)
    (hbf : (splitByDelimiters b.field).Nodup) (hbt : (splitByDelimiters b.theme).Nodup)
    (hbk : (splitByDelimiters b.keywords).Nodup)
    (hby : (splitByDelimiters b.keytechnology).Nodup) :
    calcScore a b = calcScore b a := by
  have sym : ∀ (w : Nat) (xs ys : List Str), (∀ t ∈ xs, t ≠ []) → (∀ t ∈ ys, t ≠ []) →
      xs.Nodup → ys.Nodup → matchBonus w xs ys = matchBonus w ys xs := by
    intro w xs ys hx hy hnx hny
    rw [matchBonus_eq_mul w xs ys hx, matchBonus_eq_mul w ys xs hy,
      filter_mem_length_comm xs ys hnx hny]
  unfold calcScore
  rw [sym 3 _ _ (fun t ht => mem_splitByDelimiters_ne_nil ht)
      (fun t ht => mem_splitByDelimiters_ne_nil ht) haf hbf,
    sym 2 _ _ (fun t ht => mem_splitByDelimiters_ne_nil ht)
      (fun t ht => mem_splitByDelimiters_ne_nil ht) hat hbt,
    sym 1 _ _ (fun t ht => mem_splitByDelimiters_ne_nil ht)
      (fun t ht => mem_splitByDelimiters_ne_nil ht) hak hbk,
    sym 1 _ _ (fun t ht => mem_splitByDelimiters_ne_nil ht)
      (fun t ht => mem_splitByDelimiters_ne_nil ht) hay hby]

theorem calcScore_symm_witness :
    calcScore { id := "1".data, field := "X,Y".data }
      { id := "2".data, field := "Y,Z".data } =
    calcScore { id := "2".data, field := "Y,Z".data }
      { id := "1".data, field := "X,Y".data } :=
  calcScore_symm _ _ (by decide) (by decide) (by decide) (by decide)
    (by decide) (by decide) (by decide) (by decide)

/-- C8: the filter never alters records (its output is a sublist of its
input, so every returned record is an input record unchanged), and with no
defined criteria key the input list itself is returned. -/
theorem filterResearchers_frame :
    (∀ (rs : List Researcher) (f : Filters), (filterResearchers rs f).Sublist rs) ∧
    (∀ (rs : List Researcher) (f : Filters),
      filtersEmpty f = true → filterResearchers rs f = rs) := by
  constructor
  · intro rs f
    unfold filterResearchers
    split
    · exact List.Sublist.refl rs
    · exact List.filter_sublist rs
  · intro rs f h
    unfold filterResearchers
    rw [if_pos h]

theorem filterResearchers_frame_witness :
    filterResearchers [{ id := "1".data : Researcher }] {} =
      [{ id := "1".data : Researcher }] :=
  filterResearchers_frame.2 [{ id := "1".data }] {} (by decide)

/-- C9: the core functions are total Lean functions; empty attribute
strings tokenize to nothing and contribute zero to every score (from
either side), the graph builder annotates every record, and absent
criteria impose no constraint at all. -/
theorem core_totality :
    splitByDelimiters [] = [] ∧
    (∀ a b : Researcher,
      a.field = [] → a.theme = [] → a.keywords = [] → a.keytechnology = [] →
      calcScore a b = 0) ∧
    (∀ a b : Researcher,
      b.field = [] → b.theme = [] → b.keywords = [] → b.keytechnology = [] →
      calcScore a b = 0) ∧
    (∀ rs : List Researcher, (calculateConnections rs).length = rs.length) ∧
    (∀ rs : List Researcher, filterResearchers rs {} = rs) := by
  refine ⟨rfl, ?_, ?_, ?_, fun rs => rfl⟩
  · intro a b h1 h2 h3 h4
    unfold calcScore
    rw [h1, h2, h3, h4]
    rfl
  · intro a b h1 h2 h3 h4
    unfold calcScore
    rw [h1, h2, h3, h4]
    simp [splitByDelimiters, matchBonus_nil_right]
  · intro rs
    simp [calculateConnections]

theorem core_totality_witness :
    calcScore { id := "1".data } { id := "2".data, field := "X".data } = 0 :=
  core_totality.2.1 { id := "1".data } { id := "2".data, field := "X".data }
    rfl rfl rfl rfl

/-- C10: an empty-string criterion behaves like an absent one: matchField
accepts every attribute against the empty expression, and a criteria
mapping in which every key is absent or bound to the empty string filters
nothing out. -/
theorem emptyCriteria_spec :
    (∀ v : Str, matchField v [] = true) ∧
    (∀ (rs : List Researcher) (f : Filters),
      (f.field = none ∨ f.field = some []) →
      (f.keyword = none ∨ f.keyword = some []) →
      (f.keytechnology = none ∨ f.keytechnology = some []) →
      (f.program = none ∨ f.program = some []) →
      (f.theme = none ∨ f.theme = some []) →
      (f.affiliation = none ∨ f.affiliation = some []) →
      filterResearchers rs f = rs) := by
  constructor
  · intro v
    rfl
  · intro rs f h1 h2 h3 h4 h5 h6
    have t1 : truthy f.field = false := by rcases h1 with h | h <;> rw [h] <;> rfl
    have t2 : truthy f.keyword = false := by rcases h2 with h | h <;> rw [h] <;> rfl
    have t3 : truthy f.keytechnology = false := by rcases h3 with h | h <;> rw [h] <;> rfl
    have t4 : truthy f.program = false := by rcases h4 with h | h <;> rw [h] <;> rfl
    have t5 : truthy f.theme = false := by rcases h5 with h | h <;> rw [h] <;> rfl
    have t6 : truthy f.affiliation = false := by rcases h6 with h | h <;> rw [h] <;> rfl
    by_cases hf : filtersEmpty f = true
    · unfold filterResearchers
      rw [if_pos hf]
    · unfold filterResearchers
      rw [if_neg hf]
      apply List.filter_eq_self.mpr
      intro r hr
      simp [researcherPasses, t1, t2, t3, t4, t5, t6]

theorem emptyCriteria_spec_witness :
    filterResearchers [{ id := "1".data : Researcher }]
      ⟨some [], some [], some [], some [], some [], some []⟩ =
      [{ id := "1".data : Researcher }] :=
  emptyCriteria_spec.2 [{ id := "1".data }]
    ⟨some [], some [], some [], some [], some [], some []⟩
    (Or.inr rfl) (Or.inr rfl) (Or.inr rfl) (Or.inr rfl) (Or.inr rfl) (Or.inr rfl)

theorem scoreGe_trans : ∀ a b c : Conn,
    scoreGe a b = true → scoreGe b c = true → scoreGe a c = true := by
  intro a b c hab hbc
  simp only [scoreGe, decide_eq_true_iff] at *
  omega

theorem scoreGe_total : ∀ a b : Conn, (scoreGe a b || scoreGe b a) = true := by
  intro a b
  simp only [scoreGe, Bool.or_eq_true, decide_eq_true_iff]
  omega

theorem filterMap_map_id_sublist (g : Researcher → Option Conn)
    (hg : ∀ o c, g o = some c → c.id = o.id) (l : List Researcher) :
    ((l.filterMap g).map Conn.id).Sublist (l.map Researcher.id) := by
  induction l with
  | nil => simp
  | cons o os ih =>
    cases hgo : g o with
    | none =>
      simp only [List.filterMap_cons, hgo]
      exact List.Sublist.cons _ ih
    | some c =>
      simp only [List.filterMap_cons, hgo, List.map_cons]
      rw [hg o c hgo]
      exact List.Sublist.cons₂ _ ih

theorem rawConnections_map_id_sublist (researchers : List Researcher) (r : Researcher) :
    ((rawConnections researchers r).map Conn.id).Sublist (researchers.map Researcher.id) := by
  apply filterMap_map_id_sublist
  intro o c h
  by_cases h1 : r.id = o.id
  · rw [if_pos h1] at h
    exact absurd h (by simp)
  · by_cases h2 : 0 < calcScore r o
    · rw [if_neg h1, if_pos h2] at h
      simp only [Option.some.injEq] at h
      subst h
      rfl
    · rw [if_neg h1, if_neg h2] at h
      exact absurd h (by simp)

theorem mem_rawConnections {researchers : List Researcher} {r : Researcher} {c : Conn} :
    c ∈ rawConnections researchers r ↔
      ∃ o ∈ researchers, ¬ r.id = o.id ∧ 0 < calcScore r o ∧ c = ⟨o.id, calcScore r o⟩ := by
  unfold rawConnections
  rw [List.mem_filterMap]
  constructor
  · rintro ⟨o, ho, hsome⟩
    by_cases h1 : r.id = o.id
    · rw [if_pos h1] at hsome
      exact absurd hsome (by simp)
    · by_cases h2 : 0 < calcScore r o
      · rw [if_neg h1, if_pos h2] at hsome
        simp only [Option.some.injEq] at hsome
        exact ⟨o, ho, h1, h2, hsome.symm⟩
      · rw [if_neg h1, if_neg h2] at hsome
        exact absurd hsome (by simp)
  · rintro ⟨o, ho, h1, h2, rfl⟩
    exact ⟨o, ho, by rw [if_neg h1, if_pos h2]⟩

/-- C5: with pairwise distinct record ids, after the graph builder runs,
every record's connections list contains no self edge and no duplicate
peer id, carries only strictly positive scores, is sorted by
non-increasing score, and its entries of any fixed score list their peer
ids as a subsequence of the input id order (equal scores keep input
order). -/
theorem calculateConnections_inv (researchers : List Researcher)
    (hids : (researchers.map Researcher.id).Nodup)
    (r' : Researcher) (hr : r' ∈ calculateConnections researchers) :
    (∀ c ∈ r'.connections, c.id ≠ r'.id) ∧
    ((r'.connections.map Conn.id).Nodup) ∧
    (∀ c ∈ r'.connections, 0 < c.score) ∧
    (r'.connections.Pairwise (fun a b => b.score ≤ a.score)) ∧
    (∀ n : Nat,
      (((r'.connections.filter (fun c => decide (c.score = n))).map Conn.id).Sublist
        (researchers.map Researcher.id))) := by
  obtain ⟨r, hrmem, rfl⟩ := List.mem_map.mp hr
  have hperm : (connectionsFor researchers r).Perm (rawConnections researchers r) :=
    List.mergeSort_perm _ _
  refine ⟨?_, ?_, ?_, ?_, ?_⟩
  · intro c hc
    obtain ⟨o, ho, h1, h2, rfl⟩ := mem_rawConnections.mp (hperm.subset hc)
    intro heq
    exact h1 heq.symm
  · have hraw : ((rawConnections researchers r).map Conn.id).Nodup :=
      List.Nodup.sublist (rawConnections_map_id_sublist researchers r) hids
    exact (hperm.map Conn.id).symm.nodup hraw
  · intro c hc
    obtain ⟨o, ho, h1, h2, rfl⟩ := mem_rawConnections.mp (hperm.subset hc)
    exact h2
  · have hs := List.sorted_mergeSort scoreGe_trans scoreGe_total
      (rawConnections researchers r)
    exact hs.imp (fun hab => by simpa [scoreGe] using hab)
  · intro n
    have hfsub : ((rawConnections researchers r).filter
        (fun c => decide (c.score = n))).Sublist (rawConnections researchers r) :=
      List.filter_sublist _
    have hpw : ((rawConnections researchers r).filter
        (fun c => decide (c.score = n))).Pairwise (fun a b => scoreGe a b = true) := by
      apply List.pairwise_of_forall_mem_list
      intro a ha b hb
      have ha2 := (List.mem_filter.mp ha).2
      have hb2 := (List.mem_filter.mp hb).2
      simp only [decide_eq_true_iff] at ha2 hb2
      simp [scoreGe, ha2, hb2]
    have h2 : ((rawConnections researchers r).filter
        (fun c => decide (c.score = n))).Sublist (connectionsFor researchers r) :=
      List.sublist_mergeSort scoreGe_trans scoreGe_total hpw hfsub
    have h3 := List.Sublist.filter (fun c => decide (c.score = n)) h2
    have hidem : (((rawConnections researchers r).filter
        (fun c => decide (c.score = n))).filter (fun c => decide (c.score = n))) =
        ((rawConnections researchers r).filter (fun c => decide (c.score = n))) := by
      rw [List.filter_filter]
      simp
    rw [hidem] at h3
    have hpermf : ((connectionsFor researchers r).filter
        (fun c => decide (c.score = n))).Perm
        ((rawConnections researchers r).filter (fun c => decide (c.score = n))) :=
      hperm.filter _
    have heq : ((rawConnections researchers r).filter (fun c => decide (c.score = n))) =
        ((connectionsFor researchers r).filter (fun c => decide (c.score = n))) :=
      h3.eq_of_length (hpermf.length_eq).symm
    show (((connectionsFor researchers r).filter
      (fun c => decide (c.score = n))).map Conn.id).Sublist
      (researchers.map Researcher.id)
    rw [← heq]
    exact (List.Sublist.map Conn.id hfsub).trans (rawConnections_map_id_sublist researchers r)

/-- A concrete record used to instantiate the graph-builder invariants. -/
def witA : Researcher := { id := "1".data, field := "X".data }

/-- A second concrete record sharing the field tag X with the first. -/
def witB : Researcher := { id := "2".data, field := "X,Y".data }

/-- The concrete two-record data set for the invariant instantiation. -/
def witList : List Researcher := [witA, witB]

/-- The first record as annotated by the graph builder. -/
def witA2 : Researcher := { witA with connections := connectionsFor witList witA }

theorem calculateConnections_inv_witness :
    (∀ c ∈ witA2.connections, c.id ≠ witA2.id) ∧
    ((witA2.connections.map Conn.id).Nodup) ∧
    (∀ c ∈ witA2.connections, 0 < c.score) ∧
    (witA2.connections.Pairwise (fun a b => b.score ≤ a.score)) ∧
    (∀ n : Nat,
      (((witA2.connections.filter (fun c => decide (c.score = n))).map Conn.id).Sublist
        (witList.map Researcher.id))) :=
  calculateConnections_inv witList (by decide) witA2
    (List.mem_map.mpr ⟨witA, by decide, rfl⟩)

/-- The concrete record with a Kumamoto affiliation used to instantiate
the free-text characterization. -/
def witKuma : Researcher := { id := "1".data, affiliation := "Kumamoto Univ.".data }

theorem filterResearchersSpec_witness :
    textMatchQ witKuma "kuma".data = true ↔
      (strContains (lowerStr witKuma.name) (lowerStr "kuma".data) = true ∨
       strContains (lowerStr witKuma.theme) (lowerStr "kuma".data) = true ∨
       strContains (lowerStr witKuma.affiliation) (lowerStr "kuma".data) = true) :=
  filterResearchersSpec.2.1 witKuma "kuma".data (by decide)
